import Mathlib

/-!
Shallow embedding of the `doc2md` document-conversion pipeline
(`src/doc2md/converter.py`) and proofs about the claims of its
specification.

Strings are modelled as `List Char`; the Python regular-expression
substitutions used by the code are implemented as executable recursive
functions over character lists, faithful to the leftmost, greedy,
non-overlapping semantics of `re.sub` on the concrete patterns involved
(`\n{3,}`, `\n\s*-\s+`, `[ \t]+`).  Whitespace classes are modelled on
ASCII, which covers every character the theorems below touch.
-/

namespace Doc2MD

/-- ASCII whitespace, matching Python's `str.strip` / regex `\s` on ASCII text. -/
def isWS (c : Char) : Bool :=
  c == ' ' || c == '\t' || c == '\n' || c == '\r' || c == '\x0b' || c == '\x0c'

/-- The character class `[ \t]` used by `clean_text`. -/
def isBlank (c : Char) : Bool :=
  c == ' ' || c == '\t'

/-- `re.sub(r"[ \t]+", " ", text)`: each maximal run of spaces/tabs becomes one
space.  The boolean argument records whether we are inside such a run. -/
def squashGo : Bool → List Char → List Char
  | _, [] => []
  | inRun, c :: cs =>
    if isBlank c then (if inRun then [] else [' ']) ++ squashGo true cs
    else c :: squashGo false cs

def squash (l : List Char) : List Char := squashGo false l

/-- What a pending run of `k` newlines contributes to the output of
`re.sub(r"\n{3,}", "\n\n", text)`: runs of three or more collapse to two. -/
def nlOut (k : Nat) : List Char := List.replicate (min k 2) '\n'

def collapseGo : Nat → List Char → List Char
  | k, [] => nlOut k
  | k, c :: cs =>
    if c = '\n' then collapseGo (k + 1) cs
    else nlOut k ++ c :: collapseGo 0 cs

/-- `re.sub(r"\n{3,}", "\n\n", text)`. -/
def collapse (l : List Char) : List Char := collapseGo 0 l

/-- Try to match the tail `\s*-\s+` of the pattern `\n\s*-\s+` at the start of
`cs`, returning the remainder after the (greedy) match.  Both whitespace
groups consume maximal runs; backtracking cannot help this pattern since `-`
is not a whitespace character. -/
def dashTail (cs : List Char) : Option (List Char) :=
  match cs.dropWhile isWS with
  | d :: cs2 =>
    if d = '-' then
      match cs2 with
      | e :: _ => if isWS e then some (cs2.dropWhile isWS) else none
      | [] => none
    else none
  | [] => none

/-- `re.sub(r"\n\s*-\s+", "\n- ", text)`, fuelled to keep the recursion
structural; `listFix` supplies enough fuel. -/
def listFixGo : Nat → List Char → List Char
  | 0, l => l
  | _ + 1, [] => []
  | fuel + 1, c :: cs =>
    if c = '\n' then
      match dashTail cs with
      | some rest => '\n' :: '-' :: ' ' :: listFixGo fuel rest
      | none => '\n' :: listFixGo fuel cs
    else c :: listFixGo fuel cs

def listFix (l : List Char) : List Char := listFixGo l.length l

/-- Everything from here to the end of the current line is whitespace. -/
def wsToEOL (cs : List Char) : Bool := (cs.takeWhile (· != '\n')).all isWS

/-- `"\n".join(line.rstrip() for line in text.split("\n"))`: a whitespace
character is removed exactly when every character after it on its line is
whitespace. -/
def rstripLines : List Char → List Char
  | [] => []
  | c :: cs =>
    if c = '\n' then '\n' :: rstripLines cs
    else if isWS c && wsToEOL cs then rstripLines cs
    else c :: rstripLines cs

/-- Python `str.rstrip()`. -/
def rstripAll : List Char → List Char
  | [] => []
  | c :: cs => if isWS c && cs.all isWS then [] else c :: rstripAll cs

/-- Python `str.strip()`. -/
def stripBoth (l : List Char) : List Char := rstripAll (l.dropWhile isWS)

/-- `post_process_markdown` from `converter.py`: collapse newline runs of three
or more to two, normalize `"\n<ws>*-<ws>+"` to `"\n- "`, strip trailing
whitespace from every line, then strip the whole string. -/
def postProcessL (l : List Char) : List Char :=
  stripBoth (rstripLines (listFix (collapse l)))

def post_process_markdown (s : String) : String := ⟨postProcessL s.data⟩

/-- `clean_text` from `converter.py`: squash space/tab runs, collapse newline
runs of three or more, strip. -/
def cleanTextL (l : List Char) : List Char := stripBoth (collapse (squash l))

def clean_text (s : String) : String := ⟨cleanTextL s.data⟩

/-- Decimal digit character (the argument is read mod 10). -/
def digitChar (n : Nat) : Char :=
  (['0', '1', '2', '3', '4', '5', '6', '7', '8', '9']).getD n '0'

/-- Decimal representation of a natural number (Python `str(n)`), fuelled to
keep the recursion structural; `natDec` supplies enough fuel. -/
def natDecCore : Nat → Nat → List Char
  | 0, _ => []
  | fuel + 1, n =>
    if n < 10 then [digitChar n]
    else natDecCore fuel (n / 10) ++ [digitChar (n % 10)]

def natDec (n : Nat) : List Char := natDecCore (n + 1) n

/-- Python `sep.join(parts)`. -/
def joinSep (sep : List Char) : List (List Char) → List Char
  | [] => []
  | [p] => p
  | p :: q :: rest => p ++ sep ++ joinSep sep (q :: rest)

/-- The page separator `f"\n---\n*Page \x7bpage_num\x7d*\n"` of `convert_pdf`. -/
def sepPart (num : Nat) : List Char :=
  "\n---\n*Page ".data ++ natDec num ++ "*\n".data

/-- The `markdown_parts` list built by the page loop of `convert_pdf`: pages
with a whitespace-only text layer contribute nothing; any other page
contributes its cleaned text, preceded by a separator when its 1-based page
number exceeds 1. -/
def pdfPartsGo : Nat → List (List Char) → List (List Char)
  | _, [] => []
  | num, p :: rest =>
    if stripBoth p ≠ [] then
      (if num > 1 then [sepPart num, cleanTextL p] else [cleanTextL p])
        ++ pdfPartsGo (num + 1) rest
    else pdfPartsGo (num + 1) rest

/-- `convert_pdf`, with the external page-text extraction (`fitz`) abstracted
away: the document is given as its list of per-page text layers. -/
def convertPdfL (pages : List (List Char)) : List Char :=
  postProcessL (joinSep ('\n' :: '\n' :: []) (pdfPartsGo 1 pages))

def convert_pdf (pages : List String) : String :=
  ⟨convertPdfL (pages.map String.data)⟩

/-- `cell.text.strip().replace("|", "\\|")`, escaping step. -/
def escPipe : List Char → List Char
  | [] => []
  | c :: cs => if c = '|' then '\\' :: '|' :: escPipe cs else c :: escPipe cs

def tblCell (s : List Char) : List Char := escPipe (stripBoth s)

/-- One formatted table row: `"| " + " | ".join(cells) + " |"`. -/
def tblRow (cells : List (List Char)) : List Char :=
  '|' :: ' ' :: (joinSep (' ' :: '|' :: ' ' :: []) (cells.map tblCell) ++ [' ', '|'])

/-- The synthesized header separator `"|" + "|".join(["---"] * n) + "|"`. -/
def tblSep (n : Nat) : List Char :=
  '|' :: (joinSep ['|'] (List.replicate n ('-' :: '-' :: '-' :: [])) ++ ['|'])

/-- The `rows` list built by `convert_table`: every row formatted, with the
separator row inserted right after the first (header) row, sized by the
header's cell count. -/
def tableLines : List (List (List Char)) → List (List Char)
  | [] => []
  | r0 :: rest => tblRow r0 :: tblSep r0.length :: rest.map tblRow

/-- `convert_table`, with the word-processor table given as its grid of cell
texts. -/
def convert_table (rows : List (List String)) : String :=
  ⟨joinSep ['\n'] (tableLines (rows.map (fun r => r.map String.data)))⟩

/-- Chunks between `'|'` characters, for stating the shape of a table line. -/
def splitBar : List Char → List (List Char)
  | [] => [[]]
  | c :: cs =>
    if c = '|' then [] :: splitBar cs
    else
      match splitBar cs with
      | [] => [[c]]
      | g :: gs => (c :: g) :: gs

/-- `needle` is a prefix of `hay`. -/
def leadEq : List Char → List Char → Bool
  | [], _ => true
  | _ :: _, [] => false
  | a :: as, b :: bs => a == b && leadEq as bs

/-- Python's `needle in hay` substring test. -/
def hasSub (needle : List Char) : List Char → Bool
  | [] => leadEq needle []
  | c :: t => leadEq needle (c :: t) || hasSub needle t

/-- The remainder of the string after the first occurrence of `needle`
(Python `hay.split(needle, 1)[1]` when the needle occurs). -/
def afterFirst (needle : List Char) : List Char → Option (List Char)
  | [] => if leadEq needle [] then some [] else none
  | c :: t =>
    if leadEq needle (c :: t) then some ((c :: t).drop needle.length)
    else afterFirst needle t

/-- The metadata marker of the markdown.new fallback service. -/
def MARKER : List Char := "Markdown Content:".data

/-- The response-body handling of `convert_url_via_markdown_new`: when the
body contains `"Markdown Content:"`, split once at the marker and return the
stripped tail; otherwise fall through and return the body unchanged. -/
def markdownNewBodyL (text : List Char) : List Char :=
  if hasSub MARKER text then
    match afterFirst MARKER text with
    | some rest => stripBoth rest
    | none => text
  else text

def convert_url_via_markdown_new_body (s : String) : String :=
  ⟨markdownNewBodyL s.data⟩

/-- A parsed markup tree, restricted to what the root selection of
`convert_html` consults: elements carry a tag name, an optional class
attribute (as the raw attribute string), and children; text nodes carry
their text. -/
inductive Node where
  | elem (tag : String) (cls : Option String) (children : List Node)
  | text (s : String)

/-- Tags removed by the decompose loop of `convert_html`. -/
def STRIP_TAGS : List String := ["script", "style", "nav", "footer", "header", "aside"]

mutual
/-- The decompose loop: drop every script/style/nav/footer/header/aside
element together with its whole subtree. -/
def stripForest : List Node → List Node
  | [] => []
  | n :: rest =>
    match stripNode n with
    | some m => m :: stripForest rest
    | none => stripForest rest

def stripNode : Node → Option Node
  | .text s => some (.text s)
  | .elem tag cls ch =>
    if tag ∈ STRIP_TAGS then none
    else some (.elem tag cls (stripForest ch))
end

mutual
/-- `soup.find(name)` over a forest: first element with the given tag in
document (pre-)order. -/
def findTagF (t : String) : List Node → Option Node
  | [] => none
  | n :: rest =>
    match findTagN t n with
    | some m => some m
    | none => findTagF t rest

def findTagN (t : String) : Node → Option Node
  | .text _ => none
  | .elem tag cls ch =>
    if tag = t then some (.elem tag cls ch) else findTagF t ch
end

mutual
/-- `soup.find(class_=...)` over a forest: first element whose class
attribute exists and satisfies the matcher, in document order. -/
def findClsF (p : String → Bool) : List Node → Option Node
  | [] => none
  | n :: rest =>
    match findClsN p n with
    | some m => some m
    | none => findClsF p rest

def findClsN (p : String → Bool) : Node → Option Node
  | .text _ => none
  | .elem tag cls ch =>
    match cls with
    | some c => if p c then some (.elem tag (some c) ch) else findClsF p ch
    | none => findClsF p ch
end

/-- `re.compile(r"content|article|post|entry")` applied by search to a class
attribute: a case-sensitive substring test (the code passes no `re.I` flag). -/
def classPat (c : String) : Bool :=
  hasSub "content".data c.data || hasSub "article".data c.data ||
    hasSub "post".data c.data || hasSub "entry".data c.data

/-- Modelled from the claim's wording only (not from the source): the same
matcher made case-insensitive. -/
def classPatCI (c : String) : Bool := classPat ⟨c.data.map Char.toLower⟩

/-- The conversion root selected by `convert_html`: a found element, or the
whole parsed tree (`soup`). -/
inductive Root where
  | node (n : Node)
  | whole

/-- The `main_content` chain of `convert_html` on the already-decomposed
document.  A bs4 `Tag` is truthy regardless of contents (`Tag.__bool__`
returns `True` unconditionally), so the chain of `or`s takes the first
successful `find`. -/
def selectRoot (doc : List Node) : Root :=
  match findTagF "main" doc with
  | some n => .node n
  | none =>
    match findTagF "article" doc with
    | some n => .node n
    | none =>
      match findClsF classPat doc with
      | some n => .node n
      | none =>
        match findTagF "body" doc with
        | some n => .node n
        | none => .whole

/-- Root selection of `convert_html` on a raw document: decompose, then
select. -/
def convertHtmlRoot (doc : List Node) : Root := selectRoot (stripForest doc)

/-- Modelled from the claim's wording only: the same selection chain with the
case-insensitive class matcher the claim describes. -/
def selectRootCI (doc : List Node) : Root :=
  match findTagF "main" doc with
  | some n => .node n
  | none =>
    match findTagF "article" doc with
    | some n => .node n
    | none =>
      match findClsF classPatCI doc with
      | some n => .node n
      | none =>
        match findTagF "body" doc with
        | some n => .node n
        | none => .whole

def convertHtmlRootCI (doc : List Node) : Root := selectRootCI (stripForest doc)

/-- An HTTP response as consumed by `convert_url`: declared status code,
declared content type (the `content-type` header, defaulted to `""`), and
the body (standing both for `resp.text` and, on the pdf branch, for
`resp.content`).  `convert_url` reads `status` nowhere. -/
structure HttpResponse where
  status : Nat
  contentType : String
  body : String
deriving DecidableEq

/-- Oracle for the effectful steps of a single `convert_url` call: the
outcome of the direct `client.get` (a raised exception message or a
response), the outcomes of the local `convert_pdf` / `convert_html`
conversions on a given body, and the outcome of each successive
`convert_url_via_markdown_new` attempt, numbered from 0 in call order. -/
structure UrlEnv where
  direct : Except String HttpResponse
  convertPdfR : String → Except String String
  convertHtmlR : String → Except String String
  fallback : Nat → Except String String

/-- The `try` body of the direct path of `convert_url`: content-type
branching and the length quality check; any raised error is captured (the
`directError` of the specification). -/
def directResult (env : UrlEnv) : Except String String :=
  match env.direct with
  | .error e => .error e
  | .ok r =>
    if hasSub "text/markdown".data r.contentType.data then .ok r.body
    else if hasSub "application/pdf".data r.contentType.data then env.convertPdfR r.body
    else
      match env.convertHtmlR r.body with
      | .error e => .error e
      | .ok result =>
        if result ≠ "" ∧ result.length > 100 then .ok result
        else .error "Conversion result too short"

/-- The local-conversion phase of `convert_url` (its second `try` together
with the `except` clause), entered with `k` fallback attempts already made.
Returns the call's outcome and the total number of fallback attempts. -/
def convertUrlLocal (env : UrlEnv) (use_fallback : Bool) (k : Nat) :
    Except String String × Nat :=
  match directResult env with
  | .ok s => (.ok s, k)
  | .error e =>
    if use_fallback then
      match env.fallback k with
      | .ok s => (.ok s, k + 1)
      | .error fe =>
        (.error ("Both local and fallback conversion failed: " ++ e ++ " / " ++ fe), k + 1)
    else (.error e, k)

/-- One call of `convert_url`: when `prefer_markdown_new` is set the fallback
service is tried first and its failure is swallowed; then the local phase
runs. -/
def convert_url (env : UrlEnv) (use_fallback prefer_markdown_new : Bool) :
    Except String String × Nat :=
  match prefer_markdown_new, env.fallback 0 with
  | true, .ok s => (.ok s, 1)
  | true, .error _ => convertUrlLocal env use_fallback 1
  | false, _ => convertUrlLocal env use_fallback 0

lemma afterFirst_of_hasSub (needle : List Char) :
    ∀ hay, hasSub needle hay = true → ∃ r, afterFirst needle hay = some r := by
  intro hay
  induction hay with
  | nil =>
    intro h
    simp only [hasSub] at h
    exact ⟨[], by simp [afterFirst, h]⟩
  | cons c t ih =>
    intro h
    by_cases hl : leadEq needle (c :: t) = true
    · exact ⟨(c :: t).drop needle.length, by simp [afterFirst, hl]⟩
    · simp only [hasSub, Bool.or_eq_true] at h
      rcases h with h | h
      · exact absurd h hl
      · obtain ⟨r, hr⟩ := ih h
        exact ⟨r, by simp [afterFirst, hl, hr]⟩

/-- C4: the Text Normalizer is not idempotent.  On "a\n\n \n\nb" — a
whitespace-only line between two blank lines — one application yields
"a\n\n\n\nb", because per-line trailing-whitespace removal runs after
newline-run collapsing and rebuilds a four-newline run; a second
application collapses that run to "a\n\nb". -/
theorem C4_normalizer_not_idempotent :
    post_process_markdown "a\n\n \n\nb" = "a\n\n\n\nb" ∧
    post_process_markdown (post_process_markdown "a\n\n \n\nb") = "a\n\nb" ∧
    post_process_markdown (post_process_markdown "a\n\n \n\nb")
      ≠ post_process_markdown "a\n\n \n\nb" := by
  decide

/-- C5: the pipeline output can contain three consecutive blank lines.  On
the page text "Intro\n\n \n\nBody", both the normalizer alone and the full
`convert_pdf` pipeline return "Intro\n\n\n\nBody", which contains the
four-newline run "\n\n\n\n", i.e. three consecutive blank lines: the
whitespace-only line is blanked only after newline runs were collapsed. -/
theorem C5_blank_line_invariant_violated :
    post_process_markdown "Intro\n\n \n\nBody" = "Intro\n\n\n\nBody" ∧
    convert_pdf ["Intro\n\n \n\nBody"] = "Intro\n\n\n\nBody" ∧
    hasSub "\n\n\n\n".data (post_process_markdown "Intro\n\n \n\nBody").data = true := by
  decide

/-- C1 counterexample: a Markup Normalizer result of exactly 100 characters
is rejected by the quality check (the code tests `len(result) > 100`,
strictly), so "100 or more passes" fails at length 100. -/
theorem C1_quality_boundary_counterexample :
    (String.mk (List.replicate 100 'a')).length = 100 ∧
    directResult ⟨.ok ⟨200, "text/html", "page"⟩, fun _ => .error "unused",
        fun _ => .ok ⟨List.replicate 100 'a'⟩, fun _ => .error "unused"⟩
      = .error "Conversion result too short" :=
  ⟨by decide, rfl⟩

/-- C1 (amended): on the direct path with a content type that is neither
markdown nor pdf, the Markup Normalizer result passes the quality check
exactly when its length exceeds 100 characters: 99 fails, 100 also fails,
101 or more is returned. -/
theorem C1_quality_threshold (env : UrlEnv) (r : HttpResponse) (result : String)
    (hd : env.direct = .ok r)
    (hmd : hasSub "text/markdown".data r.contentType.data = false)
    (hpdf : hasSub "application/pdf".data r.contentType.data = false)
    (hh : env.convertHtmlR r.body = .ok result) :
    (result.length ≤ 100 → directResult env = .error "Conversion result too short") ∧
    (100 < result.length → directResult env = .ok result) := by
  constructor
  · intro hle
    have hc : ¬(result ≠ "" ∧ result.length > 100) := by
      rintro ⟨-, hgt⟩
      omega
    simp [directResult, hd, hmd, hpdf, hh, hc]
  · intro hgt
    have hne : result ≠ "" := by
      intro h
      rw [h] at hgt
      simp [String.length] at hgt
    simp [directResult, hd, hmd, hpdf, hh, hne, hgt]

/-- C1 witness: a 101-character result passes the quality check and is
returned as the direct result. -/
theorem C1_quality_threshold_witness :
    directResult ⟨.ok ⟨200, "text/html", "page"⟩, fun _ => .error "unused",
        fun _ => .ok ⟨List.replicate 101 'b'⟩, fun _ => .error "unused"⟩
      = .ok ⟨List.replicate 101 'b'⟩ :=
  (C1_quality_threshold _ ⟨200, "text/html", "page"⟩ ⟨List.replicate 101 'b'⟩
    rfl (by decide) (by decide) rfl).2 (by decide)

/-- C2: the direct path of `convert_url` never inspects the HTTP status: a
status-500 response declaring content type text/markdown has its body
returned verbatim as a success, with no fallback attempt, instead of being
captured as directError. -/
theorem C2_status_never_checked :
    convert_url ⟨.ok ⟨500, "text/markdown", "Internal Server Error"⟩,
        fun _ => .error "unused", fun _ => .error "unused", fun _ => .error "unused"⟩
        true false
      = (.ok "Internal Server Error", 0) := rfl

/-- C3 counterexample: with preferFallback and allowFallback both true, a
failed initial fallback, a failed direct path and a failed second fallback
produce a combined failure after two fallback attempts — the directError is
not propagated directly and a second fallback attempt is made. -/
theorem C3_second_fallback_counterexample :
    convert_url ⟨.error "direct boom", fun _ => .error "unused", fun _ => .error "unused",
        fun k => if k = 0 then .error "first fallback down" else .error "second fallback down"⟩
        true true
      = (.error "Both local and fallback conversion failed: direct boom / second fallback down",
          2) := rfl

/-- C3 (amended): when preferFallback is true, the step-1 fallback failed and
the direct path then failed, the code consults `allowFallback` alone: if it
is true a second fallback attempt is made (two attempts total) and decides
the outcome — success, or a CombinedFailure naming the directError and the
second fallback error; only when allowFallback is false is the directError
propagated after the single step-1 attempt. -/
theorem C3_prefer_fallback_retries (env : UrlEnv) (f0 e : String)
    (hp : env.fallback 0 = .error f0)
    (hd : directResult env = .error e) :
    (∀ s, env.fallback 1 = .ok s → convert_url env true true = (.ok s, 2)) ∧
    (∀ fe, env.fallback 1 = .error fe →
      convert_url env true true
        = (.error ("Both local and fallback conversion failed: " ++ e ++ " / " ++ fe), 2)) ∧
    convert_url env false true = (.error e, 1) := by
  refine ⟨fun s hs => ?_, fun fe hfe => ?_, ?_⟩
  · simp [convert_url, convertUrlLocal, hp, hd, hs]
  · simp [convert_url, convertUrlLocal, hp, hd, hfe]
  · simp [convert_url, convertUrlLocal, hp, hd]

/-- C3 witness: a concrete run where the first fallback fails, the direct
path fails, and the second fallback attempt succeeds with two attempts
made. -/
theorem C3_prefer_fallback_retries_witness :
    convert_url ⟨.error "net down", fun _ => .error "unused", fun _ => .error "unused",
        fun k => if k = 0 then .error "fb0" else .ok "recovered"⟩ true true
      = (.ok "recovered", 2) :=
  (C3_prefer_fallback_retries ⟨.error "net down", fun _ => .error "unused",
      fun _ => .error "unused", fun k => if k = 0 then .error "fb0" else .ok "recovered"⟩
    "fb0" "net down" rfl rfl).1 "recovered" rfl

/-- C7 counterexample: when the fallback response body does not contain the
marker "Markdown Content:", the body is returned unchanged — not trimmed,
contrary to the claim ("  hello  " would trim to "hello"). -/
theorem C7_no_marker_untrimmed :
    convert_url_via_markdown_new_body "  hello  " = "  hello  " ∧
    stripBoth "  hello  ".data = "hello".data ∧
    ("  hello  " : String) ≠ "hello" := by
  decide

/-- C7 (amended): the fallback body handling returns the text after the first
occurrence of "Markdown Content:", trimmed, when the marker is present; when
the marker is absent the full body is returned as-is, untrimmed. -/
theorem C7_marker_handling (text : List Char) :
    (hasSub MARKER text = true →
      ∃ rest, afterFirst MARKER text = some rest ∧ markdownNewBodyL text = stripBoth rest) ∧
    (hasSub MARKER text = false → markdownNewBodyL text = text) := by
  constructor
  · intro h
    obtain ⟨r, hr⟩ := afterFirst_of_hasSub MARKER text h
    exact ⟨r, hr, by simp [markdownNewBodyL, h, hr]⟩
  · intro h
    simp [markdownNewBodyL, h]

/-- C7 witness: a body with the marker is split and trimmed; a body without
the marker passes through unchanged. -/
theorem C7_marker_handling_witness :
    markdownNewBodyL "untouched body ".data = "untouched body ".data :=
  (C7_marker_handling "untouched body ".data).2 (by decide)

/-- C6 counterexample: the class heuristic of `convert_html` is
case-sensitive (the code compiles `content|article|post|entry` without
`re.I`), so for a document whose only candidate is an element of class
"Content" the code selects the whole tree, while the claim's
case-insensitive reading selects that element. -/
theorem C6_class_match_case_counterexample :
    convertHtmlRoot [Node.elem "div" (some "Content") []] = Root.whole ∧
    convertHtmlRootCI [Node.elem "div" (some "Content") []]
      = Root.node (Node.elem "div" (some "Content") []) ∧
    Root.whole ≠ Root.node (Node.elem "div" (some "Content") []) :=
  ⟨rfl, rfl, fun h => Root.noConfusion h⟩

/-- C6 (amended): on the decomposed document, `convert_html` selects the
conversion root by trying, in order: a main element, an article element,
the first element whose class attribute contains content, article, post or
entry as a case-SENSITIVE substring, the body element, else the whole
tree — the first match wins and later candidates are never consulted. -/
theorem C6_root_selection_order (doc : List Node) :
    (∀ n, findTagF "main" (stripForest doc) = some n → convertHtmlRoot doc = .node n) ∧
    (findTagF "main" (stripForest doc) = none →
      ∀ n, findTagF "article" (stripForest doc) = some n → convertHtmlRoot doc = .node n) ∧
    (findTagF "main" (stripForest doc) = none →
      findTagF "article" (stripForest doc) = none →
      ∀ n, findClsF classPat (stripForest doc) = some n → convertHtmlRoot doc = .node n) ∧
    (findTagF "main" (stripForest doc) = none →
      findTagF "article" (stripForest doc) = none →
      findClsF classPat (stripForest doc) = none →
      ∀ n, findTagF "body" (stripForest doc) = some n → convertHtmlRoot doc = .node n) ∧
    (findTagF "main" (stripForest doc) = none →
      findTagF "article" (stripForest doc) = none →
      findClsF classPat (stripForest doc) = none →
      findTagF "body" (stripForest doc) = none → convertHtmlRoot doc = .whole) := by
  refine ⟨?_, ?_, ?_, ?_, ?_⟩ <;> intros <;> simp_all [convertHtmlRoot, selectRoot]

/-- C6 witness: each stage of the selection order exercised on a concrete
document. -/
theorem C6_root_selection_order_witness :
    convertHtmlRoot [Node.elem "main" none []] = Root.node (Node.elem "main" none []) ∧
    convertHtmlRoot [Node.elem "article" none []] = Root.node (Node.elem "article" none []) ∧
    convertHtmlRoot [Node.elem "div" (some "post-body") []]
      = Root.node (Node.elem "div" (some "post-body") []) ∧
    convertHtmlRoot [Node.elem "body" none []] = Root.node (Node.elem "body" none []) ∧
    convertHtmlRoot [Node.elem "div" none []] = Root.whole :=
  ⟨(C6_root_selection_order [Node.elem "main" none []]).1 _ rfl,
    (C6_root_selection_order [Node.elem "article" none []]).2.1 rfl _ rfl,
    (C6_root_selection_order [Node.elem "div" (some "post-body") []]).2.2.1 rfl rfl _ rfl,
    (C6_root_selection_order [Node.elem "body" none []]).2.2.2.1 rfl rfl rfl _ rfl,
    (C6_root_selection_order [Node.elem "div" none []]).2.2.2.2 rfl rfl rfl rfl⟩

lemma splitBar_ne_nil : ∀ l : List Char, splitBar l ≠ []
  | [] => by simp [splitBar]
  | c :: cs => by
    by_cases h : c = '|'
    · simp [splitBar, h]
    · cases hs : splitBar cs with
      | nil => simp [splitBar, h, hs]
      | cons g gs => simp [splitBar, h, hs]

lemma splitBar_cons_ne (c : Char) (h : c ≠ '|') (r : List Char) :
    splitBar (c :: r) = (c :: (splitBar r).headD []) :: (splitBar r).tail := by
  cases hs : splitBar r with
  | nil => exact absurd hs (splitBar_ne_nil r)
  | cons g gs => simp [splitBar, h, hs]

lemma splitBar_bar (r : List Char) : splitBar ('|' :: r) = [] :: splitBar r := by
  simp [splitBar]

lemma splitBar_dashes_bar (r : List Char) :
    splitBar ('-' :: '-' :: '-' :: '|' :: r) = ('-' :: '-' :: '-' :: []) :: splitBar r := by
  simp [splitBar_cons_ne '-' (by decide), splitBar_bar]

lemma splitBar_sep :
    ∀ n, splitBar (joinSep ['|']
        (('-' :: '-' :: '-' :: []) :: List.replicate n ('-' :: '-' :: '-' :: [])) ++ ['|'])
      = ('-' :: '-' :: '-' :: []) :: List.replicate n ('-' :: '-' :: '-' :: []) ++ [[]] := by
  intro n
  induction n with
  | zero => decide
  | succ m ih =>
    rw [List.replicate_succ]
    have hj : joinSep ['|'] (('-' :: '-' :: '-' :: []) :: ('-' :: '-' :: '-' :: [])
          :: List.replicate m ('-' :: '-' :: '-' :: []))
        = ('-' :: '-' :: '-' :: []) ++ ['|'] ++ joinSep ['|']
            (('-' :: '-' :: '-' :: []) :: List.replicate m ('-' :: '-' :: '-' :: [])) := rfl
    rw [hj]
    have hshape : (('-' :: '-' :: '-' :: []) ++ ['|'] ++ joinSep ['|']
          (('-' :: '-' :: '-' :: []) :: List.replicate m ('-' :: '-' :: '-' :: []))) ++ ['|']
        = '-' :: '-' :: '-' :: '|' :: (joinSep ['|']
            (('-' :: '-' :: '-' :: []) :: List.replicate m ('-' :: '-' :: '-' :: [])) ++ ['|']) := by
      simp
    rw [hshape, splitBar_dashes_bar, ih]
    simp

lemma tblSep_cells : ∀ n, (splitBar (tblSep n)).count ('-' :: '-' :: '-' :: []) = n := by
  intro n
  cases n with
  | zero => decide
  | succ m =>
    rw [tblSep, List.replicate_succ, splitBar_bar, splitBar_sep]
    simp [List.count_cons, List.count_append, List.count_replicate]

/-- C9: `convert_table` places immediately after the formatted header row a
separator row whose cells between pipe characters are exactly as many "---"
entries as the header row has cells; Scenario C holds verbatim. -/
theorem C9_table_separator (header : List (List Char)) (rest : List (List (List Char))) :
    tableLines (header :: rest) = tblRow header :: tblSep header.length :: rest.map tblRow ∧
    (splitBar (tblSep header.length)).count ('-' :: '-' :: '-' :: []) = header.length ∧
    convert_table [["A", "B"], ["1", "2"]] = "| A | B |\n|---|---|\n| 1 | 2 |" :=
  ⟨rfl, tblSep_cells header.length, by decide⟩

lemma leadEq_append_self : ∀ a b : List Char, leadEq a (a ++ b) = true
  | [], _ => rfl
  | c :: as, b => by simp [leadEq, leadEq_append_self as b]

lemma dropWhile_head_false (p : Char → Bool) :
    ∀ (l : List Char) (d : Char) (ds : List Char), l.dropWhile p = d :: ds → p d = false := by
  intro l
  induction l with
  | nil => intro d ds h; simp at h
  | cons c t ih =>
    intro d ds h
    rw [List.dropWhile_cons] at h
    by_cases hc : p c = true
    · rw [if_pos hc] at h
      exact ih d ds h
    · rw [if_neg hc] at h
      cases h
      simpa using hc

lemma stripBoth_cons_of_head (l : List Char) (d : Char) (ds : List Char)
    (h : l.dropWhile isWS = d :: ds) :
    isWS d = false ∧ stripBoth l = d :: rstripAll ds := by
  have hd : isWS d = false := dropWhile_head_false isWS l d ds h
  refine ⟨hd, ?_⟩
  rw [stripBoth, h, rstripAll]
  simp [hd]

lemma isWS_of_isBlank (c : Char) (h : isBlank c = true) : isWS c = true := by
  simp only [isBlank, Bool.or_eq_true, beq_iff_eq] at h
  rcases h with h | h <;> simp [isWS, h]

lemma squashGo_nonws : ∀ (l : List Char) (b : Bool), (∃ c ∈ l, isWS c = false) →
    ∃ c ∈ squashGo b l, isWS c = false := by
  intro l
  induction l with
  | nil =>
    rintro b ⟨c, hc, -⟩
    cases hc
  | cons d t ih =>
    rintro b ⟨c, hc, hw⟩
    rcases List.mem_cons.mp hc with rfl | hct
    · have hb : isBlank c = false := by
        cases hbc : isBlank c
        · rfl
        · rw [isWS_of_isBlank c hbc] at hw
          cases hw
      exact ⟨c, by simp [squashGo, hb], hw⟩
    · by_cases hb : isBlank d = true
      · obtain ⟨c', hc', hw'⟩ := ih true ⟨c, hct, hw⟩
        exact ⟨c', by simp only [squashGo, hb, if_true]; exact List.mem_append_right _ hc', hw'⟩
      · obtain ⟨c', hc', hw'⟩ := ih false ⟨c, hct, hw⟩
        refine ⟨c', ?_, hw'⟩
        rw [squashGo, if_neg (by simpa using hb)]
        exact List.mem_cons_of_mem d hc'

lemma collapseGo_nonws : ∀ (l : List Char) (k : Nat), (∃ c ∈ l, isWS c = false) →
    ∃ c ∈ collapseGo k l, isWS c = false := by
  intro l
  induction l with
  | nil =>
    rintro k ⟨c, hc, -⟩
    cases hc
  | cons d t ih =>
    rintro k ⟨c, hc, hw⟩
    by_cases hd : d = '\n'
    · subst hd
      rcases List.mem_cons.mp hc with rfl | hct
      · rw [show isWS '\n' = true from rfl] at hw
        cases hw
      · obtain ⟨c', h1, h2⟩ := ih (k + 1) ⟨c, hct, hw⟩
        exact ⟨c', by rw [collapseGo, if_pos rfl]; exact h1, h2⟩
    · rcases List.mem_cons.mp hc with rfl | hct
      · refine ⟨c, ?_, hw⟩
        rw [collapseGo, if_neg hd]
        exact List.mem_append_right _ (List.mem_cons_self c _)
      · obtain ⟨c', h1, h2⟩ := ih 0 ⟨c, hct, hw⟩
        refine ⟨c', ?_, h2⟩
        rw [collapseGo, if_neg hd]
        exact List.mem_append_right _ (List.mem_cons_of_mem d h1)

lemma cleanTextL_head (p : List Char) (h : stripBoth p ≠ []) :
    ∃ d ds, cleanTextL p = d :: ds ∧ isWS d = false := by
  have hex : ∃ c ∈ p, isWS c = false := by
    by_contra hall
    push_neg at hall
    have hnil : p.dropWhile isWS = [] := by
      refine List.dropWhile_eq_nil_iff.mpr fun x hx => ?_
      have := hall x hx
      simpa using this
    exact h (by rw [stripBoth, hnil]; rfl)
  have hex2 := collapseGo_nonws (squash p) 0 (squashGo_nonws p false hex)
  have hne : (collapse (squash p)).dropWhile isWS ≠ [] := by
    intro hnil
    obtain ⟨c, hc, hw⟩ := hex2
    have := List.dropWhile_eq_nil_iff.mp hnil c hc
    rw [hw] at this
    cases this
  cases hdw : (collapse (squash p)).dropWhile isWS with
  | nil => exact absurd hdw hne
  | cons d ds =>
    obtain ⟨hw, hs⟩ := stripBoth_cons_of_head _ d ds hdw
    exact ⟨d, rstripAll ds, hs, hw⟩

lemma leadEq_sep_false_of_head (d : Char) (ds : List Char) (hd : isWS d = false) :
    leadEq "\n---\n*Page ".data (d :: ds) = false := by
  have hne : ('\n' == d) = false := by
    cases hval : ('\n' == d)
    · rfl
    · exfalso
      have hnl : '\n' = d := by simpa using hval
      rw [← hnl] at hd
      simp [isWS] at hd
  have hA : "\n---\n*Page ".data = '\n' :: "---\n*Page ".data := rfl
  rw [hA, leadEq, hne]
  rfl

lemma sepPart_lead (m : Nat) : leadEq "\n---\n*Page ".data (sepPart m) = true := by
  rw [sepPart]
  exact leadEq_append_self _ _

lemma cleanTextL_lead_false (p : List Char) (h : stripBoth p ≠ []) :
    leadEq "\n---\n*Page ".data (cleanTextL p) = false := by
  obtain ⟨d, ds, hc, hw⟩ := cleanTextL_head p h
  rw [hc]
  exact leadEq_sep_false_of_head d ds hw

lemma pdfPartsGo_sep_count :
    ∀ (pages : List (List Char)) (m : Nat), 2 ≤ m → (∀ p ∈ pages, stripBoth p ≠ []) →
      (pdfPartsGo m pages).countP (fun part => leadEq "\n---\n*Page ".data part)
        = pages.length := by
  intro pages
  induction pages with
  | nil =>
    intro m _ _
    simp [pdfPartsGo]
  | cons p rest ih =>
    intro m hm h
    have hp : stripBoth p ≠ [] := h p (List.mem_cons_self p rest)
    have hrest : ∀ q ∈ rest, stripBoth q ≠ [] := fun q hq => h q (List.mem_cons_of_mem p hq)
    have hm1 : m > 1 := hm
    rw [pdfPartsGo, if_pos hp, if_pos hm1]
    simp only [List.cons_append, List.nil_append, List.countP_cons, List.length_cons]
    rw [sepPart_lead m, cleanTextL_lead_false p hp, ih (m + 1) (by omega) hrest]
    simp

/-- C8: for every document whose pages all have non-whitespace text, the
`markdown_parts` list built by `convert_pdf` contains exactly n−1 separator
entries (entries beginning with the separator prefix), and its first entry
is never a separator; Scenario A holds verbatim on the output string. -/
theorem C8_page_separators :
    (∀ pages : List (List Char), (∀ p ∈ pages, stripBoth p ≠ []) →
      (pdfPartsGo 1 pages).countP (fun part => leadEq "\n---\n*Page ".data part)
          = pages.length - 1 ∧
      ∀ first ∈ (pdfPartsGo 1 pages).head?, leadEq "\n---\n*Page ".data first = false) ∧
    convert_pdf ["Intro", "Details"] = "Intro\n\n---\n*Page 2*\n\nDetails" := by
  constructor
  · intro pages h
    cases pages with
    | nil => exact ⟨by simp [pdfPartsGo], by simp [pdfPartsGo]⟩
    | cons p rest =>
      have hp : stripBoth p ≠ [] := h p (List.mem_cons_self p rest)
      have hrest : ∀ q ∈ rest, stripBoth q ≠ [] := fun q hq => h q (List.mem_cons_of_mem p hq)
      have hgo : pdfPartsGo 1 (p :: rest) = cleanTextL p :: pdfPartsGo 2 rest := by
        rw [pdfPartsGo, if_pos hp, if_neg (by omega)]
        rfl
      constructor
      · rw [hgo, List.countP_cons, cleanTextL_lead_false p hp,
          pdfPartsGo_sep_count rest 2 (by omega) hrest]
        simp
      · intro first hf
        rw [hgo] at hf
        simp only [List.head?_cons, Option.mem_def, Option.some_inj] at hf
        rw [← hf]
        exact cleanTextL_lead_false p hp
  · decide

/-- C8 witness: the two-page document of Scenario A yields exactly one
separator entry. -/
theorem C8_page_separators_witness :
    (pdfPartsGo 1 ["Intro".data, "Details".data]).countP
        (fun part => leadEq "\n---\n*Page ".data part) = 1 := by
  have h := (C8_page_separators.1 ["Intro".data, "Details".data] (by decide)).1
  simpa using h

lemma ne_nl_of_nonws (c : Char) (h : isWS c = false) : c ≠ '\n' := by
  intro he
  rw [he] at h
  simp [isWS] at h

lemma collapseGo_nl (k : Nat) (cs : List Char) :
    collapseGo k ('\n' :: cs) = collapseGo (k + 1) cs := by
  simp [collapseGo]

lemma collapseGo_cons_ne (c : Char) (h : c ≠ '\n') (k : Nat) (cs : List Char) :
    collapseGo k (c :: cs) = nlOut k ++ c :: collapseGo 0 cs := by
  simp [collapseGo, h]

lemma collapse_front : ∀ (a : List Char), (∀ c ∈ a, c ≠ '\n') → ∀ r,
    collapseGo 0 (a ++ r) = a ++ collapseGo 0 r := by
  intro a
  induction a with
  | nil => intro _ r; rfl
  | cons c t ih =>
    intro h r
    rw [List.cons_append, collapseGo_cons_ne c (h c (List.mem_cons_self c t)),
      ih (fun d hd => h d (List.mem_cons_of_mem c hd)) r]
    rfl

lemma dashTail_dashdash (rest : List Char) : dashTail ('-' :: '-' :: rest) = none := rfl

lemma dashTail_star (rest : List Char) : dashTail ('*' :: rest) = none := rfl

lemma dashTail_le : ∀ (cs rest : List Char), dashTail cs = some rest → rest.length ≤ cs.length := by
  intro cs rest h
  cases hdw : cs.dropWhile isWS with
  | nil =>
    simp only [dashTail, hdw] at h
    cases h
  | cons d cs2 =>
    simp only [dashTail, hdw] at h
    have hlen : cs2.length + 1 ≤ cs.length := by
      have hs := (List.dropWhile_sublist (l := cs) isWS).length_le
      rw [hdw] at hs
      simpa using hs
    by_cases hd : d = '-'
    · rw [if_pos hd] at h
      cases cs2 with
      | nil => cases h
      | cons e es =>
        change (if isWS e = true then some ((e :: es).dropWhile isWS) else none) = some rest at h
        by_cases he : isWS e = true
        · rw [if_pos he] at h
          cases h
          have hs2 := (List.dropWhile_sublist (l := e :: es) isWS).length_le
          omega
        · rw [if_neg he] at h
          cases h
    · rw [if_neg hd] at h
      cases h

lemma listFixGo_fuel : ∀ (f g : Nat) (l : List Char),
    l.length ≤ f → l.length ≤ g → listFixGo f l = listFixGo g l := by
  intro f
  induction f with
  | zero =>
    intro g l hf hg
    have : l = [] := List.eq_nil_of_length_eq_zero (Nat.le_zero.mp hf)
    subst this
    cases g <;> rfl
  | succ f ih =>
    intro g l hf hg
    cases l with
    | nil => cases g <;> rfl
    | cons c cs =>
      cases g with
      | zero => simp at hg
      | succ g' =>
        simp only [List.length_cons] at hf hg
        by_cases hc : c = '\n'
        · subst hc
          rw [listFixGo, listFixGo, if_pos rfl, if_pos rfl]
          cases hdt : dashTail cs with
          | none =>
            show '\n' :: listFixGo f cs = '\n' :: listFixGo g' cs
            rw [ih g' cs (by omega) (by omega)]
          | some rest =>
            have hr := dashTail_le cs rest hdt
            show '\n' :: '-' :: ' ' :: listFixGo f rest = '\n' :: '-' :: ' ' :: listFixGo g' rest
            rw [ih g' rest (by omega) (by omega)]
        · rw [listFixGo, listFixGo, if_neg hc, if_neg hc, ih g' cs (by omega) (by omega)]

lemma listFix_cons_ne (c : Char) (h : c ≠ '\n') (cs : List Char) :
    listFix (c :: cs) = c :: listFix cs := by
  rw [listFix, listFix, List.length_cons, listFixGo, if_neg h]

lemma listFix_nl_none (cs : List Char) (h : dashTail cs = none) :
    listFix ('\n' :: cs) = '\n' :: listFix cs := by
  rw [listFix, listFix, List.length_cons, listFixGo, if_pos rfl, h]

lemma listFix_nl_head (cs : List Char) : ∃ X, listFix ('\n' :: cs) = '\n' :: X := by
  rw [listFix, List.length_cons, listFixGo, if_pos rfl]
  cases hdt : dashTail cs with
  | none => exact ⟨listFixGo cs.length cs, rfl⟩
  | some rest => exact ⟨'-' :: ' ' :: listFixGo cs.length rest, rfl⟩

lemma listFix_front : ∀ (a : List Char), (∀ c ∈ a, c ≠ '\n') → ∀ r,
    listFix (a ++ r) = a ++ listFix r := by
  intro a
  induction a with
  | nil => intro _ r; rfl
  | cons c t ih =>
    intro h r
    rw [List.cons_append, listFix_cons_ne c (h c (List.mem_cons_self c t)),
      ih (fun d hd => h d (List.mem_cons_of_mem c hd)) r]
    rfl

lemma nlOut_zero : nlOut 0 = [] := rfl

lemma nlOut_one : nlOut 1 = ['\n'] := rfl

lemma nlOut_three : nlOut 3 = ['\n', '\n'] := rfl

lemma wsToEOL_cons_nonws (d : Char) (hd : isWS d = false) (rest : List Char) :
    wsToEOL (d :: rest) = false := by
  have hdn : d ≠ '\n' := ne_nl_of_nonws d hd
  rw [wsToEOL, List.takeWhile_cons]
  simp [hdn, hd]

lemma rstripLines_nl (cs : List Char) : rstripLines ('\n' :: cs) = '\n' :: rstripLines cs := by
  simp [rstripLines]

lemma rstripLines_cons_nonws (c : Char) (h : isWS c = false) (cs : List Char) :
    rstripLines (c :: cs) = c :: rstripLines cs := by
  have hcn : c ≠ '\n' := ne_nl_of_nonws c h
  rw [rstripLines]
  simp [hcn, h]

lemma rstripLines_front : ∀ (a : List Char), (∀ c ∈ a, isWS c = false) → ∀ r,
    rstripLines (a ++ r) = a ++ rstripLines r := by
  intro a
  induction a with
  | nil => intro _ r; rfl
  | cons c t ih =>
    intro h r
    rw [List.cons_append, rstripLines_cons_nonws c (h c (List.mem_cons_self c t)),
      ih (fun d hd => h d (List.mem_cons_of_mem c hd)) r]
    rfl

lemma rstripLines_space_nonws (d : Char) (hd : isWS d = false) (cs : List Char) :
    rstripLines (' ' :: d :: cs) = ' ' :: rstripLines (d :: cs) := by
  rw [rstripLines]
  simp [wsToEOL_cons_nonws d hd]

lemma rstripAll_append_nonws : ∀ (b : List Char) (e : Char) (z : List Char), isWS e = false →
    rstripAll (b ++ e :: z) = b ++ e :: rstripAll z := by
  intro b
  induction b with
  | nil =>
    intro e z he
    rw [List.nil_append, rstripAll]
    simp [he]
  | cons c b' ih =>
    intro e z he
    rw [List.cons_append, rstripAll]
    have hall : ((b' ++ e :: z).all isWS) = false := by
      simp [List.all_append, List.all_cons, he]
    rw [hall]
    simp [ih e z he]

lemma digitChar_nonws (n : Nat) : isWS (digitChar n) = false := by
  rcases Nat.lt_or_ge n 10 with h | h
  · interval_cases n <;> decide
  · rw [digitChar, List.getD_eq_default _ _ (by simpa using h)]
    decide

lemma natDecCore_digit : ∀ (fuel n : Nat), ∀ c ∈ natDecCore fuel n, ∃ m, c = digitChar m := by
  intro fuel
  induction fuel with
  | zero =>
    intro n c hc
    cases hc
  | succ f ih =>
    intro n c hc
    rw [natDecCore] at hc
    by_cases h : n < 10
    · rw [if_pos h] at hc
      simp only [List.mem_singleton] at hc
      exact ⟨n, hc⟩
    · rw [if_neg h] at hc
      rcases List.mem_append.mp hc with h1 | h2
      · exact ih (n / 10) c h1
      · simp only [List.mem_singleton] at h2
        exact ⟨n % 10, h2⟩

lemma natDec_nonws (n : Nat) : ∀ c ∈ natDec n, isWS c = false := by
  intro c hc
  obtain ⟨m, rfl⟩ := natDecCore_digit (n + 1) n c hc
  exact digitChar_nonws m

lemma natDec_ne_nil (n : Nat) : natDec n ≠ [] := by
  rw [natDec, natDecCore]
  by_cases h : n < 10
  · simp [h]
  · simp [h]

lemma pdfPartsGo_skip : ∀ (pre : List (List Char)) (m : Nat) (rest : List (List Char)),
    (∀ p ∈ pre, stripBoth p = []) →
    pdfPartsGo m (pre ++ rest) = pdfPartsGo (m + pre.length) rest := by
  intro pre
  induction pre with
  | nil =>
    intro m rest _
    simp
  | cons p t ih =>
    intro m rest h
    have hp : stripBoth p = [] := h p (List.mem_cons_self p t)
    rw [List.cons_append, pdfPartsGo, if_neg (by simp [hp]),
      ih (m + 1) rest (fun q hq => h q (List.mem_cons_of_mem p hq))]
    simp only [List.length_cons]
    rw [show m + 1 + t.length = m + (t.length + 1) from by omega]

lemma joinSep_cons_head (sep p : List Char) (X : List (List Char)) :
    ∃ t, joinSep sep (p :: X) = p ++ t := by
  cases X with
  | nil => exact ⟨[], by simp [joinSep]⟩
  | cons q Y => exact ⟨sep ++ joinSep sep (q :: Y), by simp [joinSep]⟩

lemma postProcess_caption (K : List Char) (hK : ∀ c ∈ K, isWS c = false)
    (d0 : Char) (K' : List Char) (hKc : K = d0 :: K')
    (c₀ : Char) (h0 : isWS c₀ = false) (R : List Char) :
    ∃ T, postProcessL ("\n---\n*Page ".data ++ K ++ '*' :: '\n' :: '\n' :: '\n' :: c₀ :: R)
      = ("---\n*Page ".data ++ K ++ ['*']) ++ T := by
  have hKnl : ∀ c ∈ K, c ≠ '\n' := fun c hc => ne_nl_of_nonws c (hK c hc)
  have h0n : c₀ ≠ '\n' := ne_nl_of_nonws c₀ h0
  have hd0 : isWS d0 = false := hK d0 (hKc ▸ List.mem_cons_self d0 K')
  have hin : "\n---\n*Page ".data ++ K ++ '*' :: '\n' :: '\n' :: '\n' :: c₀ :: R
      = '\n' :: '-' :: '-' :: '-' :: '\n' :: '*' :: 'P' :: 'a' :: 'g' :: 'e' :: ' '
          :: (K ++ '*' :: '\n' :: '\n' :: '\n' :: c₀ :: R) := rfl
  have h1 : collapse ("\n---\n*Page ".data ++ K ++ '*' :: '\n' :: '\n' :: '\n' :: c₀ :: R)
      = '\n' :: '-' :: '-' :: '-' :: '\n' :: '*' :: 'P' :: 'a' :: 'g' :: 'e' :: ' '
          :: (K ++ '*' :: '\n' :: '\n' :: c₀ :: collapseGo 0 R) := by
    rw [hin, collapse, collapseGo_nl, collapseGo_cons_ne '-' (by decide),
      collapseGo_cons_ne '-' (by decide), collapseGo_cons_ne '-' (by decide), collapseGo_nl,
      collapseGo_cons_ne '*' (by decide), collapseGo_cons_ne 'P' (by decide),
      collapseGo_cons_ne 'a' (by decide), collapseGo_cons_ne 'g' (by decide),
      collapseGo_cons_ne 'e' (by decide), collapseGo_cons_ne ' ' (by decide),
      collapse_front K hKnl, collapseGo_cons_ne '*' (by decide), collapseGo_nl, collapseGo_nl,
      collapseGo_nl, collapseGo_cons_ne c₀ h0n]
    simp [nlOut_zero, nlOut_one, nlOut_three]
  obtain ⟨X, hX⟩ := listFix_nl_head ('\n' :: c₀ :: collapseGo 0 R)
  have h2 : listFix ('\n' :: '-' :: '-' :: '-' :: '\n' :: '*' :: 'P' :: 'a' :: 'g' :: 'e' :: ' '
        :: (K ++ '*' :: '\n' :: '\n' :: c₀ :: collapseGo 0 R))
      = '\n' :: '-' :: '-' :: '-' :: '\n' :: '*' :: 'P' :: 'a' :: 'g' :: 'e' :: ' '
        :: (K ++ '*' :: '\n' :: X) := by
    rw [listFix_nl_none _ (dashTail_dashdash _), listFix_cons_ne '-' (by decide),
      listFix_cons_ne '-' (by decide), listFix_cons_ne '-' (by decide),
      listFix_nl_none _ (dashTail_star _), listFix_cons_ne '*' (by decide),
      listFix_cons_ne 'P' (by decide), listFix_cons_ne 'a' (by decide),
      listFix_cons_ne 'g' (by decide), listFix_cons_ne 'e' (by decide),
      listFix_cons_ne ' ' (by decide), listFix_front K hKnl, listFix_cons_ne '*' (by decide), hX]
  have h3 : rstripLines ('\n' :: '-' :: '-' :: '-' :: '\n' :: '*' :: 'P' :: 'a' :: 'g' :: 'e' :: ' '
        :: (K ++ '*' :: '\n' :: X))
      = '\n' :: '-' :: '-' :: '-' :: '\n' :: '*' :: 'P' :: 'a' :: 'g' :: 'e' :: ' '
        :: (K ++ '*' :: '\n' :: rstripLines X) := by
    rw [rstripLines_nl, rstripLines_cons_nonws '-' (by decide),
      rstripLines_cons_nonws '-' (by decide), rstripLines_cons_nonws '-' (by decide),
      rstripLines_nl, rstripLines_cons_nonws '*' (by decide),
      rstripLines_cons_nonws 'P' (by decide), rstripLines_cons_nonws 'a' (by decide),
      rstripLines_cons_nonws 'g' (by decide), rstripLines_cons_nonws 'e' (by decide), hKc,
      show (d0 :: K') ++ '*' :: '\n' :: X = d0 :: (K' ++ '*' :: '\n' :: X) from rfl,
      rstripLines_space_nonws d0 hd0,
      show d0 :: (K' ++ '*' :: '\n' :: X) = (d0 :: K') ++ '*' :: '\n' :: X from rfl, ← hKc,
      rstripLines_front K hK, rstripLines_cons_nonws '*' (by decide), rstripLines_nl]
  refine ⟨rstripAll ('\n' :: rstripLines X), ?_⟩
  rw [postProcessL, h1, h2, h3, stripBoth,
    show List.dropWhile isWS ('\n' :: '-' :: '-' :: '-' :: '\n' :: '*' :: 'P' :: 'a' :: 'g' :: 'e'
        :: ' ' :: (K ++ '*' :: '\n' :: rstripLines X))
      = '-' :: '-' :: '-' :: '\n' :: '*' :: 'P' :: 'a' :: 'g' :: 'e' :: ' '
        :: (K ++ '*' :: '\n' :: rstripLines X) from rfl,
    show '-' :: '-' :: '-' :: '\n' :: '*' :: 'P' :: 'a' :: 'g' :: 'e' :: ' '
        :: (K ++ '*' :: '\n' :: rstripLines X)
      = ('-' :: '-' :: '-' :: '\n' :: '*' :: 'P' :: 'a' :: 'g' :: 'e' :: ' ' :: K)
          ++ '*' :: '\n' :: rstripLines X from by simp,
    rstripAll_append_nonws _ '*' _ (by decide),
    show "---\n*Page ".data = '-' :: '-' :: '-' :: '\n' :: '*' :: 'P' :: 'a' :: 'g' :: 'e'
        :: ' ' :: [] from rfl]
  simp

/-- C10: for every document whose leading pages (at least one) all have a
whitespace-only text layer and whose first contentful page is page
k = pre.length + 1 > 1, the output of `convert_pdf` begins with the page
separator block — "---" followed by the "*Page k*" caption — before any page
content. -/
theorem C10_separator_before_first_content (pre : List (List Char)) (pk : List Char)
    (rest : List (List Char))
    (hpre : ∀ p ∈ pre, stripBoth p = [])
    (hpk : stripBoth pk ≠ [])
    (hne : pre ≠ []) :
    leadEq ("---\n*Page ".data ++ natDec (pre.length + 1) ++ ['*'])
      (convertPdfL (pre ++ pk :: rest)) = true := by
  obtain ⟨c₀, cc, hclean, hc0⟩ := cleanTextL_head pk hpk
  have hlen1 : 1 ≤ pre.length := by
    cases pre with
    | nil => exact absurd rfl hne
    | cons a b => simp [List.length_cons]
  have hparts : pdfPartsGo 1 (pre ++ pk :: rest)
      = sepPart (pre.length + 1) :: cleanTextL pk :: pdfPartsGo (pre.length + 2) rest := by
    rw [pdfPartsGo_skip pre 1 (pk :: rest) hpre,
      show 1 + pre.length = pre.length + 1 from by omega, pdfPartsGo, if_pos hpk,
      if_pos (by omega : pre.length + 1 > 1),
      show pre.length + 1 + 1 = pre.length + 2 from by omega]
    rfl
  rw [convertPdfL, hparts]
  obtain ⟨t0, ht0⟩ :=
    joinSep_cons_head ('\n' :: '\n' :: []) (cleanTextL pk) (pdfPartsGo (pre.length + 2) rest)
  have hjoin : joinSep ('\n' :: '\n' :: [])
        (sepPart (pre.length + 1) :: cleanTextL pk :: pdfPartsGo (pre.length + 2) rest)
      = "\n---\n*Page ".data ++ natDec (pre.length + 1)
          ++ '*' :: '\n' :: '\n' :: '\n' :: c₀ :: (cc ++ t0) := by
    have hj2 : joinSep ('\n' :: '\n' :: [])
          (sepPart (pre.length + 1) :: cleanTextL pk :: pdfPartsGo (pre.length + 2) rest)
        = sepPart (pre.length + 1) ++ ('\n' :: '\n' :: [])
            ++ joinSep ('\n' :: '\n' :: []) (cleanTextL pk :: pdfPartsGo (pre.length + 2) rest) := by
      simp [joinSep]
    rw [hj2, ht0, hclean, sepPart]
    simp
  rw [hjoin]
  obtain ⟨d0, K', hKc⟩ : ∃ d0 K', natDec (pre.length + 1) = d0 :: K' := by
    cases hK : natDec (pre.length + 1) with
    | nil => exact absurd hK (natDec_ne_nil _)
    | cons a b => exact ⟨a, b, rfl⟩
  obtain ⟨T, hT⟩ := postProcess_caption (natDec (pre.length + 1)) (natDec_nonws _)
    d0 K' hKc c₀ hc0 (cc ++ t0)
  rw [hT]
  exact leadEq_append_self _ _

/-- C10 witness: a two-page document whose first page is empty begins with
the page-2 separator block. -/
theorem C10_separator_before_first_content_witness :
    leadEq ("---\n*Page ".data ++ natDec 2 ++ ['*'])
      (convertPdfL ([[]] ++ "Details".data :: [])) = true :=
  C10_separator_before_first_content [[]] "Details".data [] (by decide) (by decide) (by decide)

end Doc2MD
